import Mathlib

/-!
Verification development for the `nano-computed` reactive dependency-tracking
library (`src/index.js`).

The source installs, via `Object.defineProperty`, two kinds of cells on an
owner object: reactive cells (`defineReactive`: a stored `val`, a `deps` array
of subscriber callbacks; the getter registers the global `Dep` with
de-duplication, the setter replaces `val` and runs every `deps` entry in
order) and computed cells (`defineComputed`: the getter sets the global `Dep`
to the cell's `onDependencyUpdated` closure, calls `computeFn`, clears `Dep`
and returns the result; the setter is empty).

The embedding below models derivation functions and update callbacks as a
small expression language `Expr` whose interpreter `eval` performs exactly the
side effects of the source's getters: JS exceptions are the `Res.thrown`
result, and `eval` is total via a fuel parameter (running out of fuel returns
`none`, modelling divergence of unboundedly reentrant reads; every terminating
JS execution is reached at a large enough fuel).  Since each `defineComputed`
call creates one `onDependencyUpdated` closure and closures are compared by
identity in `deps.some(dep => Dep === dep)`, subscribers are identified by the
computed cell's property key (a `String`).  The interpreter additionally
counts, per computed cell, the invocations of its `computeFn` (field `calls`);
this is pure instrumentation observing where the source calls `computeFn()`,
used to state the no-memoization property.
-/

namespace NanoComputed

/-- Todo items of the demo driver: `{ text, done }` objects. -/
structure Todo where
  text : String
  done : Bool
deriving DecidableEq

/-- Runtime values: `null`/`undefined`, numbers, strings, and todo arrays
(the only value shapes the repository manipulates). -/
inductive Val where
  | vnull
  | vnat (n : Nat)
  | vstr (s : String)
  | vtodos (ts : List Todo)
deriving DecidableEq

/-- String conversion as performed by `'...' + value` and `console.log`. -/
def jsToString : Val → String
  | .vnull => "null"
  | .vnat n => toString n
  | .vstr s => s
  | .vtodos _ => "[object Array]"

/-- Expression language for derivation functions, update callbacks and driver
statements: literals, the callback's argument, property reads of reactive and
computed cells, sequencing (`a; b`), the demo's
`todos.filter(t => t.done).length` combinator, string concatenation,
`console.log`, and `throw`. -/
inductive Expr where
  | lit (v : Val)
  | arg
  | readR (k : String)
  | readC (k : String)
  | seq (a b : Expr)
  | doneCountOf (e : Expr)
  | strcat (s : String) (e : Expr)
  | log (e : Expr)
  | fail
deriving DecidableEq

/-- Reactive cell state: the closed-over `val` and the `deps` array of
registered subscribers (identified by their computed cell's key). -/
structure RCell where
  val : Val
  deps : List String
deriving DecidableEq

/-- Computed cell state: the closed-over `computeFn` and `updateCallback`. -/
structure CCell where
  computeFn : Expr
  updateCallback : Expr
deriving DecidableEq

/-- Whole-program state: the global `Dep` marker, the reactive and computed
properties installed on the owner object, the console output, and the
`computeFn` invocation counters (observational instrumentation). -/
structure St where
  Dep : Option String
  rcells : List (String × RCell)
  ccells : List (String × CCell)
  output : List String
  calls : List (String × Nat)
deriving DecidableEq

/-- Lookup of a reactive property by key (first match). -/
def lookupR (k : String) : List (String × RCell) → Option RCell
  | [] => none
  | (k', c) :: rest => if k' = k then some c else lookupR k rest

/-- Lookup of a computed property by key (first match). -/
def lookupC (k : String) : List (String × CCell) → Option CCell
  | [] => none
  | (k', c) :: rest => if k' = k then some c else lookupC k rest

/-- Lookup of an invocation counter by key (first match). -/
def lookupN (k : String) : List (String × Nat) → Option Nat
  | [] => none
  | (k', n) :: rest => if k' = k then some n else lookupN k rest

/-- Apply `f` to the cell stored at key `k` (the closure state of that
reactive property). -/
def updAt (k : String) (f : RCell → RCell) : List (String × RCell) → List (String × RCell)
  | [] => []
  | (k', c) :: rest =>
    if k' = k then (k', f c) :: updAt k f rest else (k', c) :: updAt k f rest

/-- Increment the invocation counter of computed cell `k`. -/
def bumpCalls (k : String) : List (String × Nat) → List (String × Nat)
  | [] => [(k, 1)]
  | (k', n) :: rest =>
    if k' = k then (k', n + 1) :: rest else (k', n) :: bumpCalls k rest

/-- The `deps` array of reactive cell `k` (empty when no such cell exists). -/
def depsOf (k : String) (st : St) : List String :=
  ((lookupR k st.rcells).map RCell.deps).getD []

/-- The stored value of reactive cell `k` (`undefined`/null when absent). -/
def valOf (k : String) (st : St) : Val :=
  ((lookupR k st.rcells).map RCell.val).getD .vnull

/-- Number of `computeFn` invocations of computed cell `k` so far. -/
def getCalls (k : String) (st : St) : Nat :=
  (lookupN k st.calls).getD 0

/-- Outcome of evaluating an expression: a value, or a propagating JS
exception. -/
inductive Res where
  | ok (v : Val)
  | thrown
deriving DecidableEq

/-- Interpreter for `Expr`, embedding the source's property getters.

`eval fuel a e st`: `a` is the enclosing callback's argument (`undefined` at
top level).  The `readR` case is `defineReactive`'s getter: if `Dep` is set
and not yet in this cell's `deps`, append it, then return `val`.  The `readC`
case is `defineComputed`'s getter: set `Dep` to this cell's subscriber, call
`computeFn` (counted), then clear `Dep` and return — but, exactly as in the
source, the clearing assignment is skipped when `computeFn` throws, because
the exception propagates first. -/
def eval : Nat → Val → Expr → St → Option (Res × St)
  | 0, _, _, _ => none
  | _ + 1, _, .lit v, st => some (.ok v, st)
  | _ + 1, a, .arg, st => some (.ok a, st)
  | _ + 1, _, .fail, st => some (.thrown, st)
  | _ + 1, _, .readR k, st =>
    match lookupR k st.rcells with
    | none => some (.ok .vnull, st)
    | some cell =>
      match st.Dep with
      | none => some (.ok cell.val, st)
      | some d =>
        if d ∈ cell.deps then some (.ok cell.val, st)
        else
          some (.ok cell.val,
            { st with rcells := updAt k (fun c => { c with deps := c.deps ++ [d] }) st.rcells })
  | fuel + 1, _, .readC k, st =>
    match lookupC k st.ccells with
    | none => some (.ok .vnull, st)
    | some cc =>
      match eval fuel .vnull cc.computeFn
          { st with Dep := some k, calls := bumpCalls k st.calls } with
      | none => none
      | some (.ok v, st2) => some (.ok v, { st2 with Dep := none })
      | some (.thrown, st2) => some (.thrown, st2)
  | fuel + 1, a, .seq e1 e2, st =>
    match eval fuel a e1 st with
    | none => none
    | some (.ok _, st') => eval fuel a e2 st'
    | some (.thrown, st') => some (.thrown, st')
  | fuel + 1, a, .doneCountOf e, st =>
    match eval fuel a e st with
    | none => none
    | some (.ok (.vtodos ts), st') =>
      some (.ok (.vnat (ts.filter (fun t => t.done)).length), st')
    | some (.ok _, st') => some (.thrown, st')
    | some (.thrown, st') => some (.thrown, st')
  | fuel + 1, a, .strcat s e, st =>
    match eval fuel a e st with
    | none => none
    | some (.ok v, st') => some (.ok (.vstr (s ++ jsToString v)), st')
    | some (.thrown, st') => some (.thrown, st')
  | fuel + 1, a, .log e, st =>
    match eval fuel a e st with
    | none => none
    | some (.ok v, st') =>
      some (.ok .vnull, { st' with output := st'.output ++ [jsToString v] })
    | some (.thrown, st') => some (.thrown, st')

/-- The `onDependencyUpdated` closure of computed cell `k`: call `computeFn`
(counted), pass the result to `updateCallback`.  It does not touch `Dep`. -/
def onDependencyUpdated (fuel : Nat) (k : String) (st : St) : Option (Res × St) :=
  match lookupC k st.ccells with
  | none => some (.ok .vnull, st)
  | some cc =>
    match eval fuel .vnull cc.computeFn { st with calls := bumpCalls k st.calls } with
    | none => none
    | some (.ok v, st2) =>
      match eval fuel v cc.updateCallback st2 with
      | none => none
      | some (.ok _, st3) => some (.ok .vnull, st3)
      | some (.thrown, st3) => some (.thrown, st3)
    | some (.thrown, st2) => some (.thrown, st2)

/-- The `deps.forEach(changeFn => changeFn())` loop of `defineReactive`'s
setter: run the subscriber invocations in order; a JS exception aborts the
remaining iterations and propagates. -/
def notifyDeps (fuel : Nat) : List String → St → Option (Res × St)
  | [], st => some (.ok .vnull, st)
  | d :: rest, st =>
    match onDependencyUpdated fuel d st with
    | none => none
    | some (.ok _, st') => notifyDeps fuel rest st'
    | some (.thrown, st') => some (.thrown, st')

/-- The setter of `defineReactive`: store the new value, then notify the
subscribers present at write time, in registration order. -/
def setReactive (fuel : Nat) (k : String) (v : Val) (st : St) : Option (Res × St) :=
  match lookupR k st.rcells with
  | none => some (.ok v, st)
  | some cell =>
    match notifyDeps fuel cell.deps
        { st with rcells := updAt k (fun c => { c with val := v }) st.rcells } with
    | none => none
    | some (.ok _, st') => some (.ok v, st')
    | some (.thrown, st') => some (.thrown, st')

/-- Property assignment `obj.key = v`: a computed property's setter is the
empty function `set () {}` (the assignment is accepted and ignored); a
reactive property's setter is `setReactive`. -/
def assign (fuel : Nat) (k : String) (v : Val) (st : St) : Option (Res × St) :=
  match lookupC k st.ccells with
  | some _ => some (.ok v, st)
  | none => setReactive fuel k v st

/-- Install a reactive property with initial value `v` and an empty `deps`
array. -/
def defineReactive (k : String) (v : Val) (st : St) : St :=
  { st with rcells := (k, { val := v, deps := [] }) :: st.rcells }

/-- The source's `defineReactive(obj, key)` with the `val = null` default
argument omitted. -/
def defineReactiveDefault (k : String) (st : St) : St :=
  defineReactive k .vnull st

/-- Install a computed property with the given derivation function and update
callback. -/
def defineComputed (k : String) (computeFn : Expr) (updateCallback : Expr) (st : St) : St :=
  { st with ccells := (k, { computeFn := computeFn, updateCallback := updateCallback }) :: st.ccells }

/-- The source's `updateCallback = () => {}` default: a no-op returning
`undefined`. -/
def noopCallback : Expr := .lit .vnull

/-- The state before any property is installed. -/
def initialState : St :=
  { Dep := none, rcells := [], ccells := [], output := [], calls := [] }

/-- Expressions that contain no computed-cell read.  The spec's concurrency
model (§5) assumes derivations perform no reentrant computed-cell reads; this
predicate delimits that assumption. -/
def noRC : Expr → Bool
  | .lit _ => true
  | .arg => true
  | .fail => true
  | .readR _ => true
  | .readC _ => false
  | .seq a b => noRC a && noRC b
  | .doneCountOf e => noRC e
  | .strcat _ e => noRC e
  | .log e => noRC e

/-- Expressions that print nothing to the console (conservatively excluding
computed-cell reads, whose derivations could print). -/
def noLog : Expr → Bool
  | .lit _ => true
  | .arg => true
  | .fail => true
  | .readR _ => true
  | .readC _ => false
  | .seq a b => noLog a && noLog b
  | .doneCountOf e => noLog e
  | .strcat _ e => noLog e
  | .log _ => false

/-- Whether an expression syntactically reads reactive cell `r`.  The
language has no branching, so in a normally-returning evaluation every
syntactic read is executed. -/
def occursR : Expr → String → Bool
  | .readR k, r => k == r
  | .seq a b, r => occursR a r || occursR b r
  | .doneCountOf e, r => occursR e r
  | .strcat _ e, r => occursR e r
  | .log e, r => occursR e r
  | _, _ => false

/-- Projection of the state onto each reactive cell's subscriber collection. -/
def depsMap (st : St) : List (String × List String) :=
  st.rcells.map fun p => (p.1, p.2.deps)

/-- Sequencing of driver statements: continue only on normal completion,
exactly as consecutive JS statements do. -/
def andThen (p : Option (Res × St)) (g : St → Option (Res × St)) : Option (Res × St) :=
  match p with
  | some (.ok _, st) => g st
  | other => other

/-- The demo's first `todos` value: three items, none done. -/
def todos0 : Val := .vtodos [⟨"123", false⟩, ⟨"456", false⟩, ⟨"789", false⟩]

/-- The demo's second `todos` value: one item done. -/
def todos1 : Val := .vtodos [⟨"123", true⟩, ⟨"456", false⟩, ⟨"789", false⟩]

/-- The demo's third `todos` value: two items done. -/
def todos2 : Val := .vtodos [⟨"123", true⟩, ⟨"456", true⟩, ⟨"789", false⟩]

/-- The demo's fourth `todos` value: all three items done. -/
def todos3 : Val := .vtodos [⟨"123", true⟩, ⟨"456", true⟩, ⟨"789", true⟩]

/-- The demo's property declarations: reactive `todos` (no initial value) and
computed `doneCount` counting done items, whose change callback prints
`'new done count is ' + data.doneCount` (note: the callback re-reads the
computed property rather than using its argument, as in the source). -/
def demoSetup : St :=
  defineComputed "doneCount" (.doneCountOf (.readR "todos"))
    (.log (.strcat "new done count is " (.readC "doneCount")))
    (defineReactiveDefault "todos" initialState)

/-- The demo driver: set `todos` to three undone items, `console.log` one read
of `doneCount`, then perform the three writes that successively mark items
done. -/
def demoRun : Option (Res × St) :=
  andThen (assign 20 "todos" todos0 demoSetup) fun st1 =>
  andThen (eval 20 .vnull (.log (.readC "doneCount")) st1) fun st2 =>
  andThen (assign 20 "todos" todos1 st2) fun st3 =>
  andThen (assign 20 "todos" todos2 st3) fun st4 =>
  assign 20 "todos" todos3 st4

/-- A reactive cell `r` and a computed cell `c` whose derivation throws. -/
def throwSt : St :=
  defineComputed "c" .fail noopCallback (defineReactiveDefault "r" initialState)

/-- Two reactive cells and two computed cells, the outer one performing a
nested computed-cell read before reading `r2`. -/
def nestedSt : St :=
  defineComputed "outer" (.seq (.readC "inner") (.readR "r2")) noopCallback
    (defineComputed "inner" (.readR "r1") noopCallback
      (defineReactive "r2" (.vnat 2) (defineReactive "r1" (.vnat 1) initialState)))

/-- A computed cell whose derivation reads the same reactive cell twice. -/
def doubleReadSt : St :=
  defineComputed "c" (.seq (.readR "r") (.readR "r")) noopCallback
    (defineReactive "r" (.vnat 0) initialState)

/-- A reactive cell already subscribed to by a computed cell whose change
callback logs the value it receives. -/
def logArgSt : St :=
  { Dep := none,
    rcells := [("r", { val := .vnat 0, deps := ["c"] })],
    ccells := [("c", { computeFn := .readR "r", updateCallback := .log .arg })],
    output := [], calls := [] }

/-- A reactive cell with two registered computed subscribers whose callbacks
log distinguishable strings. -/
def twoSubsSt : St :=
  { Dep := none,
    rcells := [("r", { val := .vnat 0, deps := ["c1", "c2"] })],
    ccells := [("c1", { computeFn := .lit (.vnat 1), updateCallback := .log (.lit (.vstr "one")) }),
               ("c2", { computeFn := .lit (.vnat 2), updateCallback := .log (.lit (.vstr "two")) })],
    output := [], calls := [] }

/-- A computed cell reading one reactive cell, with the no-op callback. -/
def oneDepSt : St :=
  defineComputed "c" (.readR "r") noopCallback
    (defineReactive "r" (.vnat 0) initialState)

/-! ## Basic lemmas about the state helpers -/

theorem lookupR_updAt (k j : String) (f : RCell → RCell) (l : List (String × RCell)) :
    lookupR j (updAt k f l) = if j = k then (lookupR j l).map f else lookupR j l := by
  induction l with
  | nil => by_cases h : j = k <;> simp [updAt, lookupR, h]
  | cons p rest ih =>
    obtain ⟨k', c⟩ := p
    by_cases h1 : k' = k <;> by_cases h2 : k' = j
    · subst h1; subst h2
      simp [updAt, lookupR]
    · subst h1
      have h2' : ¬ j = k' := fun h => h2 h.symm
      simp [updAt, lookupR, h2, h2', ih]
    · subst h2
      simp [updAt, lookupR, h1]
    · have h2' : ¬ j = k' := fun h => h2 h.symm
      simp [updAt, lookupR, h1, h2, h2', ih]

theorem depsOf_push {st : St} {k : String} {cell : RCell}
    (hk : lookupR k st.rcells = some cell) (j d : String) :
    depsOf j { st with rcells := updAt k (fun c => { c with deps := c.deps ++ [d] }) st.rcells }
      = if j = k then depsOf j st ++ [d] else depsOf j st := by
  by_cases h : j = k
  · subst h
    simp [depsOf, lookupR_updAt, hk]
  · simp [depsOf, lookupR_updAt, h]

theorem depsOf_setVal (st : St) (k j : String) (v : Val) :
    depsOf j { st with rcells := updAt k (fun c => { c with val := v }) st.rcells }
      = depsOf j st := by
  by_cases h : j = k
  · subst h
    cases hk : lookupR j st.rcells <;> simp [depsOf, lookupR_updAt, hk]
  · simp [depsOf, lookupR_updAt, h]

theorem valOf_setVal {st : St} {k : String} {cell : RCell}
    (hk : lookupR k st.rcells = some cell) (v : Val) :
    valOf k { st with rcells := updAt k (fun c => { c with val := v }) st.rcells } = v := by
  simp [valOf, lookupR_updAt, hk]

theorem isSome_push (st : St) (k j d : String) :
    (lookupR j (updAt k (fun c => { c with deps := c.deps ++ [d] }) st.rcells)).isSome
      = (lookupR j st.rcells).isSome := by
  by_cases h : j = k
  · subst h
    cases hk : lookupR j st.rcells <;> simp [lookupR_updAt, hk]
  · simp [lookupR_updAt, h]

theorem lookupN_bumpCalls (k : String) (l : List (String × Nat)) :
    lookupN k (bumpCalls k l) = some ((lookupN k l).getD 0 + 1) := by
  induction l with
  | nil => simp [bumpCalls, lookupN]
  | cons p rest ih =>
    obtain ⟨k', n⟩ := p
    by_cases h : k' = k <;> simp [bumpCalls, lookupN, h, ih]

theorem lookupC_mem {k : String} {cc : CCell} :
    ∀ {l : List (String × CCell)}, lookupC k l = some cc → (k, cc) ∈ l := by
  intro l
  induction l with
  | nil => simp [lookupC]
  | cons p rest ih =>
    obtain ⟨k', c⟩ := p
    intro hl
    by_cases h : k' = k
    · subst h
      simp [lookupC] at hl
      subst hl
      exact List.mem_cons_self _ _
    · simp [lookupC, h] at hl
      exact List.mem_cons_of_mem _ (ih hl)

theorem map_depsProj_updAt_setVal (k : String) (v : Val) (l : List (String × RCell)) :
    (updAt k (fun c => { c with val := v }) l).map (fun p => (p.1, p.2.deps))
      = l.map (fun p => (p.1, p.2.deps)) := by
  induction l with
  | nil => simp [updAt]
  | cons p rest ih =>
    obtain ⟨k', c⟩ := p
    by_cases h : k' = k <;> simp [updAt, h, ih]

theorem depsMap_setVal (st : St) (k : String) (v : Val) :
    depsMap { st with rcells := updAt k (fun c => { c with val := v }) st.rcells }
      = depsMap st := by
  simp [depsMap, map_depsProj_updAt_setVal]

/-! ## Invariants of evaluating reentrancy-free expressions -/

/-- State facts preserved by evaluating an expression that performs no
computed-cell read: the `Dep` marker, the invocation counters and the set of
installed properties are untouched; when `Dep` is inactive nothing is
registered at all; and no reactive cell appears or disappears. -/
def StInv (st st' : St) : Prop :=
  st'.Dep = st.Dep ∧ st'.calls = st.calls ∧ st'.ccells = st.ccells ∧
  (st.Dep = none → st'.rcells = st.rcells) ∧
  (∀ k, (lookupR k st'.rcells).isSome = (lookupR k st.rcells).isSome)

theorem stInv_refl (st : St) : StInv st st :=
  ⟨rfl, rfl, rfl, fun _ => rfl, fun _ => rfl⟩

theorem stInv_trans {s1 s2 s3 : St} (h1 : StInv s1 s2) (h2 : StInv s2 s3) : StInv s1 s3 := by
  obtain ⟨d1, c1, cc1, r1, s1'⟩ := h1
  obtain ⟨d2, c2, cc2, r2, s2'⟩ := h2
  refine ⟨d2.trans d1, c2.trans c1, cc2.trans cc1, ?_, fun k => (s2' k).trans (s1' k)⟩
  intro hd
  rw [r2 (d1.trans hd), r1 hd]

theorem eval_noRC_stinv {e : Expr} (he : noRC e = true) :
    ∀ {f : Nat} {a : Val} {st : St} {r : Res} {st' : St},
      eval f a e st = some (r, st') → StInv st st' := by
  induction e with
  | lit v =>
    intro f a st r st' h
    cases f with
    | zero => simp [eval] at h
    | succ f =>
      simp [eval] at h
      obtain ⟨rfl, rfl⟩ := h
      exact stInv_refl st
  | arg =>
    intro f a st r st' h
    cases f with
    | zero => simp [eval] at h
    | succ f =>
      simp [eval] at h
      obtain ⟨rfl, rfl⟩ := h
      exact stInv_refl st
  | fail =>
    intro f a st r st' h
    cases f with
    | zero => simp [eval] at h
    | succ f =>
      simp [eval] at h
      obtain ⟨rfl, rfl⟩ := h
      exact stInv_refl st
  | readC k => simp [noRC] at he
  | readR k =>
    intro f a st r st' h
    cases f with
    | zero => simp [eval] at h
    | succ f =>
      simp only [eval] at h
      cases hl : lookupR k st.rcells with
      | none =>
        simp [hl] at h
        obtain ⟨rfl, rfl⟩ := h
        exact stInv_refl st
      | some cell =>
        cases hd : st.Dep with
        | none =>
          simp [hl, hd] at h
          obtain ⟨rfl, rfl⟩ := h
          exact stInv_refl st
        | some d =>
          by_cases hmem : d ∈ cell.deps
          · simp [hl, hd, hmem] at h
            obtain ⟨rfl, rfl⟩ := h
            exact stInv_refl st
          · simp [hl, hd, hmem] at h
            obtain ⟨rfl, rfl⟩ := h
            refine ⟨hd.symm, rfl, rfl, ?_, ?_⟩
            · intro hcontra
              rw [hd] at hcontra
              exact absurd hcontra (by simp)
            · intro j
              exact isSome_push st k j d
  | seq e1 e2 ih1 ih2 =>
    intro f a st r st' h
    simp [noRC] at he
    cases f with
    | zero => simp [eval] at h
    | succ f =>
      simp only [eval] at h
      cases hE : eval f a e1 st with
      | none => simp [hE] at h
      | some p =>
        obtain ⟨res, mid⟩ := p
        cases res with
        | thrown =>
          simp [hE] at h
          obtain ⟨rfl, rfl⟩ := h
          exact ih1 he.1 hE
        | ok v =>
          simp [hE] at h
          exact stInv_trans (ih1 he.1 hE) (ih2 he.2 h)
  | doneCountOf e ih =>
    intro f a st r st' h
    simp [noRC] at he
    cases f with
    | zero => simp [eval] at h
    | succ f =>
      simp only [eval] at h
      cases hE : eval f a e st with
      | none => simp [hE] at h
      | some p =>
        obtain ⟨res, mid⟩ := p
        cases res with
        | thrown =>
          simp [hE] at h
          obtain ⟨rfl, rfl⟩ := h
          exact ih he hE
        | ok v =>
          cases v <;> simp [hE] at h <;> obtain ⟨rfl, rfl⟩ := h <;> exact ih he hE
  | strcat s e ih =>
    intro f a st r st' h
    simp [noRC] at he
    cases f with
    | zero => simp [eval] at h
    | succ f =>
      simp only [eval] at h
      cases hE : eval f a e st with
      | none => simp [hE] at h
      | some p =>
        obtain ⟨res, mid⟩ := p
        cases res with
        | thrown =>
          simp [hE] at h
          obtain ⟨rfl, rfl⟩ := h
          exact ih he hE
        | ok v =>
          simp [hE] at h
          obtain ⟨rfl, rfl⟩ := h
          exact ih he hE
  | log e ih =>
    intro f a st r st' h
    simp [noRC] at he
    cases f with
    | zero => simp [eval] at h
    | succ f =>
      simp only [eval] at h
      cases hE : eval f a e st with
      | none => simp [hE] at h
      | some p =>
        obtain ⟨res, mid⟩ := p
        cases res with
        | thrown =>
          simp [hE] at h
          obtain ⟨rfl, rfl⟩ := h
          exact ih he hE
        | ok v =>
          simp [hE] at h
          obtain ⟨rfl, rfl⟩ := h
          exact stInv_trans (ih he hE) (stInv_refl mid)

/-- Facts about how evaluation can change the subscriber collections: entries
are never removed, any new entry is the currently active `Dep`, and
de-duplication keeps every collection duplicate-free. -/
def DepsFacts (st st' : St) : Prop :=
  ∀ k : String,
    (∀ c, c ∈ depsOf k st → c ∈ depsOf k st') ∧
    (∀ c, c ∈ depsOf k st' → c ∈ depsOf k st ∨ st.Dep = some c) ∧
    ((depsOf k st).Nodup → (depsOf k st').Nodup)

theorem depsFacts_refl (st : St) : DepsFacts st st :=
  fun _ => ⟨fun _ hc => hc, fun _ hc => Or.inl hc, id⟩

theorem depsFacts_trans {s1 s2 s3 : St} (hdep : s2.Dep = s1.Dep)
    (h1 : DepsFacts s1 s2) (h2 : DepsFacts s2 s3) : DepsFacts s1 s3 := by
  intro k
  refine ⟨fun c hc => (h2 k).1 c ((h1 k).1 c hc), fun c hc => ?_,
    fun hn => (h2 k).2.2 ((h1 k).2.2 hn)⟩
  rcases (h2 k).2.1 c hc with hm | hd
  · exact (h1 k).2.1 c hm
  · exact Or.inr (hdep.symm.trans hd)

theorem eval_deps_facts {e : Expr} (he : noRC e = true) :
    ∀ {f : Nat} {a : Val} {st : St} {r : Res} {st' : St},
      eval f a e st = some (r, st') → DepsFacts st st' := by
  induction e with
  | lit v =>
    intro f a st r st' h
    cases f with
    | zero => simp [eval] at h
    | succ f =>
      simp [eval] at h
      obtain ⟨rfl, rfl⟩ := h
      exact depsFacts_refl st
  | arg =>
    intro f a st r st' h
    cases f with
    | zero => simp [eval] at h
    | succ f =>
      simp [eval] at h
      obtain ⟨rfl, rfl⟩ := h
      exact depsFacts_refl st
  | fail =>
    intro f a st r st' h
    cases f with
    | zero => simp [eval] at h
    | succ f =>
      simp [eval] at h
      obtain ⟨rfl, rfl⟩ := h
      exact depsFacts_refl st
  | readC k => simp [noRC] at he
  | readR k =>
    intro f a st r st' h
    cases f with
    | zero => simp [eval] at h
    | succ f =>
      simp only [eval] at h
      cases hl : lookupR k st.rcells with
      | none =>
        simp [hl] at h
        obtain ⟨rfl, rfl⟩ := h
        exact depsFacts_refl st
      | some cell =>
        cases hd : st.Dep with
        | none =>
          simp [hl, hd] at h
          obtain ⟨rfl, rfl⟩ := h
          exact depsFacts_refl st
        | some d =>
          by_cases hmem : d ∈ cell.deps
          · simp [hl, hd, hmem] at h
            obtain ⟨rfl, rfl⟩ := h
            exact depsFacts_refl st
          · simp [hl, hd, hmem] at h
            obtain ⟨rfl, rfl⟩ := h
            intro j
            by_cases hjk : j = k
            · subst hjk
              refine ⟨?_, ?_, ?_⟩
              · intro c hc
                simp [depsOf, lookupR_updAt, hl]
                exact Or.inl (by simpa [depsOf, hl] using hc)
              · intro c hc
                simp [depsOf, lookupR_updAt, hl] at hc
                rcases hc with hm | hm
                · exact Or.inl (by simpa [depsOf, hl] using hm)
                · subst hm
                  exact Or.inr hd
              · intro hn
                simp [depsOf, hl] at hn
                simp [depsOf, lookupR_updAt, hl]
                refine List.Nodup.append hn (List.nodup_singleton d) ?_
                intro x hx hx2
                simp at hx2
                subst hx2
                exact hmem hx
            · refine ⟨?_, ?_, ?_⟩
              · intro c hc
                simpa [depsOf, lookupR_updAt, hjk] using hc
              · intro c hc
                exact Or.inl (by simpa [depsOf, lookupR_updAt, hjk] using hc)
              · intro hn
                simpa [depsOf, lookupR_updAt, hjk] using hn
  | seq e1 e2 ih1 ih2 =>
    intro f a st r st' h
    simp [noRC] at he
    cases f with
    | zero => simp [eval] at h
    | succ f =>
      simp only [eval] at h
      cases hE : eval f a e1 st with
      | none => simp [hE] at h
      | some p =>
        obtain ⟨res, mid⟩ := p
        cases res with
        | thrown =>
          simp [hE] at h
          obtain ⟨rfl, rfl⟩ := h
          exact ih1 he.1 hE
        | ok v =>
          simp [hE] at h
          exact depsFacts_trans (eval_noRC_stinv he.1 hE).1 (ih1 he.1 hE) (ih2 he.2 h)
  | doneCountOf e ih =>
    intro f a st r st' h
    simp [noRC] at he
    cases f with
    | zero => simp [eval] at h
    | succ f =>
      simp only [eval] at h
      cases hE : eval f a e st with
      | none => simp [hE] at h
      | some p =>
        obtain ⟨res, mid⟩ := p
        cases res with
        | thrown =>
          simp [hE] at h
          obtain ⟨rfl, rfl⟩ := h
          exact ih he hE
        | ok v =>
          cases v <;> simp [hE] at h <;> obtain ⟨rfl, rfl⟩ := h <;> exact ih he hE
  | strcat s e ih =>
    intro f a st r st' h
    simp [noRC] at he
    cases f with
    | zero => simp [eval] at h
    | succ f =>
      simp only [eval] at h
      cases hE : eval f a e st with
      | none => simp [hE] at h
      | some p =>
        obtain ⟨res, mid⟩ := p
        cases res with
        | thrown =>
          simp [hE] at h
          obtain ⟨rfl, rfl⟩ := h
          exact ih he hE
        | ok v =>
          simp [hE] at h
          obtain ⟨rfl, rfl⟩ := h
          exact ih he hE
  | log e ih =>
    intro f a st r st' h
    simp [noRC] at he
    cases f with
    | zero => simp [eval] at h
    | succ f =>
      simp only [eval] at h
      cases hE : eval f a e st with
      | none => simp [hE] at h
      | some p =>
        obtain ⟨res, mid⟩ := p
        cases res with
        | thrown =>
          simp [hE] at h
          obtain ⟨rfl, rfl⟩ := h
          exact ih he hE
        | ok v =>
          simp [hE] at h
          obtain ⟨rfl, rfl⟩ := h
          exact depsFacts_trans (eval_noRC_stinv he hE).1 (ih he hE) (depsFacts_refl mid)

theorem eval_noLog_output {e : Expr} (hrc : noRC e = true) (hnl : noLog e = true) :
    ∀ {f : Nat} {a : Val} {st : St} {r : Res} {st' : St},
      eval f a e st = some (r, st') → st'.output = st.output := by
  induction e with
  | lit v =>
    intro f a st r st' h
    cases f with
    | zero => simp [eval] at h
    | succ f =>
      simp [eval] at h
      obtain ⟨rfl, rfl⟩ := h
      rfl
  | arg =>
    intro f a st r st' h
    cases f with
    | zero => simp [eval] at h
    | succ f =>
      simp [eval] at h
      obtain ⟨rfl, rfl⟩ := h
      rfl
  | fail =>
    intro f a st r st' h
    cases f with
    | zero => simp [eval] at h
    | succ f =>
      simp [eval] at h
      obtain ⟨rfl, rfl⟩ := h
      rfl
  | readC k => simp [noRC] at hrc
  | readR k =>
    intro f a st r st' h
    cases f with
    | zero => simp [eval] at h
    | succ f =>
      simp only [eval] at h
      cases hl : lookupR k st.rcells with
      | none =>
        simp [hl] at h
        obtain ⟨rfl, rfl⟩ := h
        rfl
      | some cell =>
        cases hd : st.Dep with
        | none =>
          simp [hl, hd] at h
          obtain ⟨rfl, rfl⟩ := h
          rfl
        | some d =>
          by_cases hmem : d ∈ cell.deps <;> simp [hl, hd, hmem] at h <;>
            obtain ⟨rfl, rfl⟩ := h <;> rfl
  | seq e1 e2 ih1 ih2 =>
    intro f a st r st' h
    simp [noRC] at hrc
    simp [noLog] at hnl
    cases f with
    | zero => simp [eval] at h
    | succ f =>
      simp only [eval] at h
      cases hE : eval f a e1 st with
      | none => simp [hE] at h
      | some p =>
        obtain ⟨res, mid⟩ := p
        cases res with
        | thrown =>
          simp [hE] at h
          obtain ⟨rfl, rfl⟩ := h
          exact ih1 hrc.1 hnl.1 hE
        | ok v =>
          simp [hE] at h
          exact (ih2 hrc.2 hnl.2 h).trans (ih1 hrc.1 hnl.1 hE)
  | doneCountOf e ih =>
    intro f a st r st' h
    simp [noRC] at hrc
    simp [noLog] at hnl
    cases f with
    | zero => simp [eval] at h
    | succ f =>
      simp only [eval] at h
      cases hE : eval f a e st with
      | none => simp [hE] at h
      | some p =>
        obtain ⟨res, mid⟩ := p
        cases res with
        | thrown =>
          simp [hE] at h
          obtain ⟨rfl, rfl⟩ := h
          exact ih hrc hnl hE
        | ok v =>
          cases v <;> simp [hE] at h <;> obtain ⟨rfl, rfl⟩ := h <;> exact ih hrc hnl hE
  | strcat s e ih =>
    intro f a st r st' h
    simp [noRC] at hrc
    simp [noLog] at hnl
    cases f with
    | zero => simp [eval] at h
    | succ f =>
      simp only [eval] at h
      cases hE : eval f a e st with
      | none => simp [hE] at h
      | some p =>
        obtain ⟨res, mid⟩ := p
        cases res with
        | thrown =>
          simp [hE] at h
          obtain ⟨rfl, rfl⟩ := h
          exact ih hrc hnl hE
        | ok v =>
          simp [hE] at h
          obtain ⟨rfl, rfl⟩ := h
          exact ih hrc hnl hE
  | log e ih => simp [noLog] at hnl

theorem eval_registers {e : Expr} (he : noRC e = true) :
    ∀ {f : Nat} {a : Val} {st : St} {v : Val} {st' : St} {c r : String},
      st.Dep = some c → (lookupR r st.rcells).isSome = true →
      eval f a e st = some (.ok v, st') → occursR e r = true →
      c ∈ depsOf r st' := by
  induction e with
  | lit v => intro f a st v' st' c r _ _ _ hocc; simp [occursR] at hocc
  | arg => intro f a st v' st' c r _ _ _ hocc; simp [occursR] at hocc
  | fail => intro f a st v' st' c r _ _ _ hocc; simp [occursR] at hocc
  | readC k => simp [noRC] at he
  | readR k =>
    intro f a st v' st' c r hDep hex h hocc
    simp [occursR] at hocc
    subst hocc
    cases f with
    | zero => simp [eval] at h
    | succ f =>
      simp only [eval] at h
      cases hl : lookupR k st.rcells with
      | none => rw [hl] at hex; simp at hex
      | some cell =>
        by_cases hmem : c ∈ cell.deps
        · simp [hl, hDep, hmem] at h
          obtain ⟨rfl, rfl⟩ := h
          simpa [depsOf, hl] using hmem
        · simp [hl, hDep, hmem] at h
          obtain ⟨rfl, rfl⟩ := h
          simp [depsOf, lookupR_updAt, hl]
  | seq e1 e2 ih1 ih2 =>
    intro f a st v' st' c r hDep hex h hocc
    simp [noRC] at he
    simp [occursR] at hocc
    cases f with
    | zero => simp [eval] at h
    | succ f =>
      simp only [eval] at h
      cases hE : eval f a e1 st with
      | none => simp [hE] at h
      | some p =>
        obtain ⟨res, mid⟩ := p
        cases res with
        | thrown => simp [hE] at h
        | ok v1 =>
          simp [hE] at h
          rcases hocc with hocc | hocc
          · have hm := ih1 he.1 hDep hex hE hocc
            exact ((eval_deps_facts he.2 h) r).1 c hm
          · have hinv := eval_noRC_stinv he.1 hE
            exact ih2 he.2 (hinv.1.trans hDep) ((hinv.2.2.2.2 r).trans hex) h hocc
  | doneCountOf e ih =>
    intro f a st v' st' c r hDep hex h hocc
    simp [noRC] at he
    simp [occursR] at hocc
    cases f with
    | zero => simp [eval] at h
    | succ f =>
      simp only [eval] at h
      cases hE : eval f a e st with
      | none => simp [hE] at h
      | some p =>
        obtain ⟨res, mid⟩ := p
        cases res with
        | thrown => simp [hE] at h
        | ok v =>
          cases v <;> simp [hE] at h
          obtain ⟨rfl, rfl⟩ := h.2
          exact ih he hDep hex hE hocc
  | strcat s e ih =>
    intro f a st v' st' c r hDep hex h hocc
    simp [noRC] at he
    simp [occursR] at hocc
    cases f with
    | zero => simp [eval] at h
    | succ f =>
      simp only [eval] at h
      cases hE : eval f a e st with
      | none => simp [hE] at h
      | some p =>
        obtain ⟨res, mid⟩ := p
        cases res with
        | thrown => simp [hE] at h
        | ok v =>
          simp [hE] at h
          obtain ⟨rfl, rfl⟩ := h
          exact ih he hDep hex hE hocc
  | log e ih =>
    intro f a st v' st' c r hDep hex h hocc
    simp [noRC] at he
    simp [occursR] at hocc
    cases f with
    | zero => simp [eval] at h
    | succ f =>
      simp only [eval] at h
      cases hE : eval f a e st with
      | none => simp [hE] at h
      | some p =>
        obtain ⟨res, mid⟩ := p
        cases res with
        | thrown => simp [hE] at h
        | ok v =>
          simp [hE] at h
          obtain ⟨rfl, rfl⟩ := h
          have hm : c ∈ depsOf r mid := ih he hDep hex hE hocc
          exact hm

/-- Reading a reactive cell while the `Dep` marker is inactive returns the
stored value and leaves the state exactly unchanged: no subscriber is
registered. -/
theorem readR_no_register {st : St} (hd : st.Dep = none) (k : String) (g : Nat) (a : Val) :
    eval (g + 1) a (.readR k) st = some (.ok (valOf k st), st) := by
  cases hl : lookupR k st.rcells with
  | none => simp [eval, hl, valOf]
  | some cell => simp [eval, hl, hd, valOf]

/-! ## Claim theorems -/

/-- C1 (amended): after a computed-cell read that returns normally, the
process-wide `Dep` marker is empty, and any subsequent reactive-cell read
leaves the state unchanged — in particular it adds no entry to any subscriber
collection.  (The original claim also asserted this for failing derivations;
`C1_counterexample` shows the marker is left active in that case.) -/
theorem C1_marker_cleared_on_normal_return {st : St} {c : String} {cc : CCell} {f : Nat}
    {v : Val} {st' : St}
    (hcc : lookupC c st.ccells = some cc)
    (hread : eval f .vnull (.readC c) st = some (.ok v, st')) :
    st'.Dep = none ∧
    ∀ k g a, eval (g + 1) a (.readR k) st' = some (.ok (valOf k st'), st') := by
  cases f with
  | zero => simp [eval] at hread
  | succ f =>
    simp only [eval, hcc] at hread
    cases hE : eval f .vnull cc.computeFn
        { st with Dep := some c, calls := bumpCalls c st.calls } with
    | none => simp [hE] at hread
    | some p =>
      obtain ⟨res, st2⟩ := p
      cases res with
      | thrown => simp [hE] at hread
      | ok w =>
        simp [hE] at hread
        obtain ⟨rfl, rfl⟩ := hread
        exact ⟨rfl, fun k g a => readR_no_register rfl k g a⟩

/-- The state reached by the successful computed read of `oneDepSt`. -/
def oneDepReadEnd : St :=
  { Dep := none,
    rcells := [("r", { val := .vnat 0, deps := ["c"] })],
    ccells := [("c", { computeFn := .readR "r", updateCallback := .lit .vnull })],
    output := [], calls := [("c", 1)] }

/-- Witness for `C1_marker_cleared_on_normal_return` on the concrete state
`oneDepSt`. -/
theorem C1_witness :
    oneDepReadEnd.Dep = none ∧
    eval 4 .vnull (.readR "r") oneDepReadEnd
      = some (.ok (valOf "r" oneDepReadEnd), oneDepReadEnd) := by
  have h := @C1_marker_cleared_on_normal_return oneDepSt "c"
    { computeFn := .readR "r", updateCallback := .lit .vnull }
    5 (.vnat 0) oneDepReadEnd (by decide) (by decide)
  exact ⟨h.1, h.2 "r" 3 .vnull⟩

/-- C1 (counterexample to the original claim): with a derivation that throws,
the computed-cell read completes abnormally with the `Dep` marker still set to
that cell's subscriber, and a subsequent top-level reactive-cell read *does*
register that stale subscriber. -/
theorem C1_counterexample :
    (eval 5 .vnull (.readC "c") throwSt).map (fun p => p.2.Dep) = some (some "c") ∧
    ((eval 5 .vnull (.readC "c") throwSt).bind fun p => eval 5 .vnull (.readR "r") p.2).map
        (fun p => depsOf "r" p.2) = some ["c"] := by
  exact ⟨by decide, by decide⟩

/-- C7: assigning to a computed property is accepted (the assignment
expression yields the assigned value, no error) and leaves the whole state
unchanged — the source installs the empty setter `set () {}`.  In particular
no derivation runs, no callback fires, and any subsequent read behaves as if
the assignment had not happened. -/
theorem C7_computed_assignment_ignored {st : St} {k : String} {cc : CCell} (f : Nat) (v : Val)
    (hcc : lookupC k st.ccells = some cc) :
    assign f k v st = some (.ok v, st) := by
  simp [assign, hcc]

/-- Witness for `C7_computed_assignment_ignored`: assigning to the demo's
`doneCount` computed property. -/
theorem C7_witness :
    assign 3 "doneCount" (.vnat 99) demoSetup = some (.ok (.vnat 99), demoSetup) :=
  @C7_computed_assignment_ignored demoSetup "doneCount"
    { computeFn := .doneCountOf (.readR "todos"),
      updateCallback := .log (.strcat "new done count is " (.readC "doneCount")) }
    3 (.vnat 99) (by decide)

/-- C8: a reactive cell defined without an explicit initial value holds the
default `null`, and reading it returns that `null`; more generally a
reactive-cell read always returns normally (never throws, never diverges at
positive fuel), whatever the state. -/
theorem C8_uninitialized_read_defaults (st : St) (k : String) (f : Nat) :
    (∃ st', eval (f + 1) .vnull (.readR k) (defineReactiveDefault k st)
        = some (.ok .vnull, st')) ∧
    ∀ (st₂ : St) (a : Val), ∃ v st', eval (f + 1) a (.readR k) st₂ = some (.ok v, st') := by
  constructor
  · have hl : lookupR k (defineReactiveDefault k st).rcells
        = some { val := .vnull, deps := [] } := by
      simp [defineReactiveDefault, defineReactive, lookupR]
    cases hd : st.Dep with
    | none =>
      exact ⟨defineReactiveDefault k st,
        by simp [eval, hl, show (defineReactiveDefault k st).Dep = none from hd]⟩
    | some d =>
      exact ⟨{ defineReactiveDefault k st with
                rcells := updAt k (fun c => { c with deps := c.deps ++ [d] })
                  (defineReactiveDefault k st).rcells },
        by simp [eval, hl, show (defineReactiveDefault k st).Dep = some d from hd]⟩
  · intro st₂ a
    cases hl : lookupR k st₂.rcells with
    | none => exact ⟨.vnull, st₂, by simp [eval, hl]⟩
    | some cell =>
      cases hd : st₂.Dep with
      | none => exact ⟨cell.val, st₂, by simp [eval, hl, hd]⟩
      | some d =>
        by_cases hmem : d ∈ cell.deps
        · exact ⟨cell.val, st₂, by simp [eval, hl, hd, hmem]⟩
        · exact ⟨cell.val,
            { st₂ with rcells := updAt k (fun c => { c with deps := c.deps ++ [d] }) st₂.rcells },
            by simp [eval, hl, hd, hmem]⟩

/-- C10: running the embedded demo driver produces exactly the console output
of the source's example: the driver's own log of the first `doneCount` read
(`"0"`, no change callback fires for a read), followed by the three
change-callback prints, in write order. -/
theorem C10_demo_outputs :
    (demoRun.map fun p => p.2.output)
      = some ["0", "new done count is 1", "new done count is 2", "new done count is 3"] := by
  decide

/-- C2: when a computed cell `o`'s derivation performs a nested computed-cell
read and then reads a reactive cell `r2`, the nested read overwrites the
active marker and clears it on completion instead of restoring `o`, so the
subsequent reactive-cell read registers nothing for `o`: `o` never appears in
`r2`'s subscriber collection. -/
theorem C2_nested_read_misroutes {st : St} {o i r2 : String} {cco cci : CCell} {f : Nat}
    {v : Val} {st' : St}
    (ho : lookupC o st.ccells = some cco)
    (hfn : cco.computeFn = .seq (.readC i) (.readR r2))
    (hi : lookupC i st.ccells = some cci)
    (hnri : noRC cci.computeFn = true)
    (hne : i ≠ o)
    (hini : o ∉ depsOf r2 st)
    (hread : eval f .vnull (.readC o) st = some (.ok v, st')) :
    o ∉ depsOf r2 st' := by
  cases f with
  | zero => simp [eval] at hread
  | succ f =>
    simp only [eval, ho, hfn] at hread
    cases hE1 : eval f .vnull (.seq (.readC i) (.readR r2))
        { st with Dep := some o, calls := bumpCalls o st.calls } with
    | none => simp [hE1] at hread
    | some p =>
      obtain ⟨res, stB⟩ := p
      cases res with
      | thrown => simp [hE1] at hread
      | ok w =>
        simp [hE1] at hread
        obtain ⟨rfl, rfl⟩ := hread
        cases f with
        | zero => simp [eval] at hE1
        | succ f =>
          simp only [eval] at hE1
          cases hE2 : eval f .vnull (.readC i)
              { st with Dep := some o, calls := bumpCalls o st.calls } with
          | none => simp [hE2] at hE1
          | some q =>
            obtain ⟨res2, mid⟩ := q
            cases res2 with
            | thrown => simp [hE2] at hE1
            | ok vi =>
              simp [hE2] at hE1
              cases f with
              | zero => simp [eval] at hE2
              | succ f =>
                simp only [eval, hi] at hE2
                cases hE3 : eval f .vnull cci.computeFn
                    { st with Dep := some i, calls := bumpCalls i (bumpCalls o st.calls) } with
                | none => simp [hE3] at hE2
                | some q3 =>
                  obtain ⟨res3, stA⟩ := q3
                  cases res3 with
                  | thrown => simp [hE3] at hE2
                  | ok vi' =>
                    simp [hE3] at hE2
                    obtain ⟨rfl, rfl⟩ := hE2
                    have hA : o ∉ depsOf r2 stA := by
                      intro hmem
                      rcases ((eval_deps_facts hnri hE3) r2).2.1 o hmem with hm | hd
                      · exact hini hm
                      · have hio : some i = some o := hd
                        exact hne (Option.some.inj hio)
                    rw [readR_no_register rfl r2 f .vnull] at hE1
                    simp at hE1
                    obtain ⟨rfl, rfl⟩ := hE1
                    exact hA

/-- The state reached by the computed read of `nestedSt`'s outer cell: `r1`
captured the nested cell `inner` as a subscriber, and `r2` captured nothing. -/
def nestedEnd : St :=
  { Dep := none,
    rcells := [("r2", { val := .vnat 2, deps := [] }),
               ("r1", { val := .vnat 1, deps := ["inner"] })],
    ccells := [("outer", { computeFn := .seq (.readC "inner") (.readR "r2"),
                           updateCallback := .lit .vnull }),
               ("inner", { computeFn := .readR "r1", updateCallback := .lit .vnull })],
    output := [], calls := [("outer", 1), ("inner", 1)] }

/-- Witness for `C2_nested_read_misroutes` on the concrete state `nestedSt`. -/
theorem C2_witness : "outer" ∉ depsOf "r2" nestedEnd :=
  @C2_nested_read_misroutes nestedSt "outer" "inner" "r2"
    { computeFn := .seq (.readC "inner") (.readR "r2"), updateCallback := .lit .vnull }
    { computeFn := .readR "r1", updateCallback := .lit .vnull }
    10 (.vnat 2) nestedEnd
    (by decide) (by decide) (by decide) (by decide) (by decide) (by decide) (by decide)

/-- C3: one successful read of a computed cell `c` whose (reentrancy-free)
derivation reads reactive cell `r` — however many times — leaves exactly one
occurrence of `c` in `r`'s subscriber collection, whether or not `c` was
already registered: an identical callback is never appended twice. -/
theorem C3_dedup_single_registration {st : St} {c r : String} {cc : CCell} {f : Nat}
    {v : Val} {st' : St}
    (hcc : lookupC c st.ccells = some cc)
    (hnr : noRC cc.computeFn = true)
    (hocc : occursR cc.computeFn r = true)
    (hex : (lookupR r st.rcells).isSome = true)
    (hnd : (depsOf r st).Nodup)
    (hread : eval f .vnull (.readC c) st = some (.ok v, st')) :
    (depsOf r st').count c = 1 := by
  cases f with
  | zero => simp [eval] at hread
  | succ f =>
    simp only [eval, hcc] at hread
    cases hE : eval f .vnull cc.computeFn
        { st with Dep := some c, calls := bumpCalls c st.calls } with
    | none => simp [hE] at hread
    | some p =>
      obtain ⟨res, st2⟩ := p
      cases res with
      | thrown => simp [hE] at hread
      | ok w =>
        simp [hE] at hread
        obtain ⟨rfl, rfl⟩ := hread
        have hmem : c ∈ depsOf r st2 :=
          @eval_registers cc.computeFn hnr f Val.vnull
            { st with Dep := some c, calls := bumpCalls c st.calls } w st2 c r
            rfl hex hE hocc
        have hnd2 : (depsOf r st2).Nodup := ((eval_deps_facts hnr hE) r).2.2 hnd
        exact List.count_eq_one_of_mem hnd2 hmem

/-- The state reached by one computed read of `doubleReadSt`, whose derivation
reads `r` twice: `r` holds the single subscriber entry `["c"]`. -/
def doubleReadEnd : St :=
  { Dep := none,
    rcells := [("r", { val := .vnat 0, deps := ["c"] })],
    ccells := [("c", { computeFn := .seq (.readR "r") (.readR "r"),
                       updateCallback := .lit .vnull })],
    output := [], calls := [("c", 1)] }

/-- Witness for `C3_dedup_single_registration`: the derivation of
`doubleReadSt` reads `r` twice, yet one read registers `c` exactly once. -/
theorem C3_witness : (depsOf "r" doubleReadEnd).count "c" = 1 :=
  @C3_dedup_single_registration doubleReadSt "c" "r"
    { computeFn := .seq (.readR "r") (.readR "r"), updateCallback := .lit .vnull }
    5 (.vnat 0) doubleReadEnd
    (by decide) (by decide) (by decide) (by decide) (by decide) (by decide)

/-- C6: computed cells are not memoized — two consecutive successful reads of
the same computed cell, with no intervening write, both invoke the derivation
function, so its invocation counter grows by exactly two. -/
theorem C6_reads_always_recompute {st : St} {c : String} {cc : CCell} {f g : Nat}
    {v1 v2 : Val} {st1 st2 : St}
    (hcc : lookupC c st.ccells = some cc)
    (hnr : noRC cc.computeFn = true)
    (h1 : eval f .vnull (.readC c) st = some (.ok v1, st1))
    (h2 : eval g .vnull (.readC c) st1 = some (.ok v2, st2)) :
    getCalls c st2 = getCalls c st + 2 := by
  cases f with
  | zero => simp [eval] at h1
  | succ f =>
    simp only [eval, hcc] at h1
    cases hE1 : eval f .vnull cc.computeFn
        { st with Dep := some c, calls := bumpCalls c st.calls } with
    | none => simp [hE1] at h1
    | some p =>
      obtain ⟨res, stM⟩ := p
      cases res with
      | thrown => simp [hE1] at h1
      | ok w =>
        simp [hE1] at h1
        obtain ⟨rfl, rfl⟩ := h1
        have hinv1 := eval_noRC_stinv hnr hE1
        have hcalls1 : stM.calls = bumpCalls c st.calls := hinv1.2.1
        have hccM : lookupC c stM.ccells = some cc := by
          rw [hinv1.2.2.1]; exact hcc
        cases g with
        | zero => simp [eval] at h2
        | succ g =>
          simp only [eval, hccM] at h2
          cases hE2 : eval g .vnull cc.computeFn
              { stM with Dep := some c, calls := bumpCalls c stM.calls } with
          | none => simp [hE2] at h2
          | some q =>
            obtain ⟨res2, stN⟩ := q
            cases res2 with
            | thrown => simp [hE2] at h2
            | ok w2 =>
              simp [hE2] at h2
              obtain ⟨rfl, rfl⟩ := h2
              have hinv2 := eval_noRC_stinv hnr hE2
              have hcalls2 : stN.calls = bumpCalls c stM.calls := hinv2.2.1
              show getCalls c stN = getCalls c st + 2
              simp [getCalls, hcalls2, hcalls1, lookupN_bumpCalls]

/-- The state reached by two consecutive computed reads of `oneDepSt`: the
invocation counter of `c` stands at two. -/
def twoReadsEnd : St :=
  { Dep := none,
    rcells := [("r", { val := .vnat 0, deps := ["c"] })],
    ccells := [("c", { computeFn := .readR "r", updateCallback := .lit .vnull })],
    output := [], calls := [("c", 2)] }

/-- Witness for `C6_reads_always_recompute` on the concrete state `oneDepSt`. -/
theorem C6_witness : getCalls "c" twoReadsEnd = getCalls "c" oneDepSt + 2 :=
  @C6_reads_always_recompute oneDepSt "c"
    { computeFn := .readR "r", updateCallback := .lit .vnull }
    5 5 (.vnat 0) (.vnat 0) oneDepReadEnd twoReadsEnd
    (by decide) (by decide) (by decide) (by decide)

/-- Running one subscriber invocation while `Dep` is inactive, in a state
whose computed cells are all reentrancy-free, changes no reactive cell and
leaves `Dep` inactive. -/
theorem onDepUpd_no_register {st : St} {d : String} {f : Nat} {res : Res} {st' : St}
    (hDep : st.Dep = none)
    (hall : (st.ccells.all fun p => noRC p.2.computeFn && noRC p.2.updateCallback) = true)
    (h : onDependencyUpdated f d st = some (res, st')) :
    st'.rcells = st.rcells ∧ st'.Dep = none ∧ st'.ccells = st.ccells := by
  unfold onDependencyUpdated at h
  cases hl : lookupC d st.ccells with
  | none =>
    simp [hl] at h
    obtain ⟨rfl, rfl⟩ := h
    exact ⟨rfl, hDep, rfl⟩
  | some cc =>
    have hconj := List.all_eq_true.mp hall _ (lookupC_mem hl)
    rw [Bool.and_eq_true] at hconj
    simp only [hl] at h
    cases hE1 : eval f .vnull cc.computeFn { st with calls := bumpCalls d st.calls } with
    | none => simp [hE1] at h
    | some p =>
      obtain ⟨r1, s1⟩ := p
      have hinv1 := eval_noRC_stinv hconj.1 hE1
      cases r1 with
      | thrown =>
        simp [hE1] at h
        obtain ⟨rfl, rfl⟩ := h
        exact ⟨hinv1.2.2.2.1 hDep, hinv1.1.trans hDep, hinv1.2.2.1⟩
      | ok w =>
        simp only [hE1] at h
        cases hE2 : eval f w cc.updateCallback s1 with
        | none => simp [hE2] at h
        | some q =>
          obtain ⟨r2, s2⟩ := q
          have hinv2 := eval_noRC_stinv hconj.2 hE2
          have hs1Dep : s1.Dep = none := hinv1.1.trans hDep
          have hrc : s2.rcells = st.rcells :=
            (hinv2.2.2.2.1 hs1Dep).trans (hinv1.2.2.2.1 hDep)
          have hdep2 : s2.Dep = none := hinv2.1.trans hs1Dep
          have hcc2 : s2.ccells = st.ccells := hinv2.2.2.1.trans hinv1.2.2.1
          cases r2 with
          | thrown =>
            simp [hE2] at h
            obtain ⟨rfl, rfl⟩ := h
            exact ⟨hrc, hdep2, hcc2⟩
          | ok w2 =>
            simp [hE2] at h
            obtain ⟨rfl, rfl⟩ := h
            exact ⟨hrc, hdep2, hcc2⟩

/-- Running a whole notification sweep while `Dep` is inactive, in a state
whose computed cells are all reentrancy-free, changes no reactive cell. -/
theorem notifyDeps_no_register {f : Nat} :
    ∀ {ds : List String} {st : St} {res : Res} {st' : St},
      st.Dep = none →
      (st.ccells.all fun p => noRC p.2.computeFn && noRC p.2.updateCallback) = true →
      notifyDeps f ds st = some (res, st') →
      st'.rcells = st.rcells ∧ st'.Dep = none ∧ st'.ccells = st.ccells := by
  intro ds
  induction ds with
  | nil =>
    intro st res st' hDep hall h
    simp [notifyDeps] at h
    obtain ⟨rfl, rfl⟩ := h
    exact ⟨rfl, hDep, rfl⟩
  | cons d rest ih =>
    intro st res st' hDep hall h
    simp only [notifyDeps] at h
    cases hO : onDependencyUpdated f d st with
    | none => simp [hO] at h
    | some p =>
      obtain ⟨r1, s1⟩ := p
      have hstep := onDepUpd_no_register hDep hall hO
      cases r1 with
      | thrown =>
        simp [hO] at h
        obtain ⟨rfl, rfl⟩ := h
        exact hstep
      | ok w =>
        simp [hO] at h
        have hrest := ih hstep.2.1 (hstep.2.2.symm ▸ hall) h
        exact ⟨hrest.1.trans hstep.1, hrest.2.1, hrest.2.2.trans hstep.2.2⟩

/-- C9: a write performed while the `Dep` marker is inactive — with every
installed computed cell reentrancy-free, as the spec's execution model
assumes — leaves every reactive cell's subscriber collection unchanged: the
notification-phase recomputations run with the marker inactive and register
nothing.  Only computed-cell reads can register dependencies. -/
theorem C9_write_registers_nothing {st : St} {f : Nat} {k : String} {v : Val}
    {res : Res} {st' : St}
    (hDep : st.Dep = none)
    (hall : (st.ccells.all fun p => noRC p.2.computeFn && noRC p.2.updateCallback) = true)
    (hw : setReactive f k v st = some (res, st')) :
    depsMap st' = depsMap st := by
  unfold setReactive at hw
  cases hl : lookupR k st.rcells with
  | none =>
    simp [hl] at hw
    obtain ⟨rfl, rfl⟩ := hw
    rfl
  | some cell =>
    simp only [hl] at hw
    cases hN : notifyDeps f cell.deps
        { st with rcells := updAt k (fun c => { c with val := v }) st.rcells } with
    | none => simp [hN] at hw
    | some p =>
      obtain ⟨r1, s1⟩ := p
      have hstep := @notifyDeps_no_register f cell.deps
        { st with rcells := updAt k (fun c => { c with val := v }) st.rcells }
        r1 s1 hDep hall hN
      have hmap : depsMap s1 = depsMap st := by
        simp [depsMap, hstep.1, map_depsProj_updAt_setVal]
      cases r1 with
      | thrown =>
        simp [hN] at hw
        obtain ⟨rfl, rfl⟩ := hw
        exact hmap
      | ok w =>
        simp [hN] at hw
        obtain ⟨rfl, rfl⟩ := hw
        exact hmap

/-- The state reached by writing `9` to `r` in `twoSubsSt`. -/
def twoSubsEnd : St :=
  { Dep := none,
    rcells := [("r", { val := .vnat 9, deps := ["c1", "c2"] })],
    ccells := [("c1", { computeFn := .lit (.vnat 1), updateCallback := .log (.lit (.vstr "one")) }),
               ("c2", { computeFn := .lit (.vnat 2), updateCallback := .log (.lit (.vstr "two")) })],
    output := ["one", "two"], calls := [("c1", 1), ("c2", 1)] }

/-- Witness for `C9_write_registers_nothing` on the concrete state
`twoSubsSt`. -/
theorem C9_witness : depsMap twoSubsEnd = depsMap twoSubsSt :=
  @C9_write_registers_nothing twoSubsSt 5 "r" (.vnat 9) (.ok (.vnat 9)) twoSubsEnd
    (by decide) (by decide) (by decide)

/-- C4: writing `v` to a reactive cell `r` whose collection holds the
subscriber of computed cell `c` first replaces the stored value, then invokes
`c`'s change callback with the derivation's result computed against the
already-updated state: the callback logs exactly the value the derivation
produced on the new-value state, in which `r` already reads back as `v`. -/
theorem C4_write_recomputes_with_new_value {st : St} {r c : String} {cell : RCell} {cc : CCell}
    {f : Nat} {v w : Val} {stA : St}
    (hr : lookupR r st.rcells = some cell)
    (hdeps : cell.deps = [c])
    (hcc : lookupC c st.ccells = some cc)
    (hcb : cc.updateCallback = .log .arg)
    (heval : eval (f + 2) .vnull cc.computeFn
        { st with rcells := updAt r (fun x => { x with val := v }) st.rcells,
                  calls := bumpCalls c st.calls } = some (.ok w, stA)) :
    setReactive (f + 2) r v st
      = some (.ok v, { stA with output := stA.output ++ [jsToString w] }) ∧
    valOf r { st with rcells := updAt r (fun x => { x with val := v }) st.rcells } = v := by
  refine ⟨?_, valOf_setVal hr v⟩
  simp [setReactive, notifyDeps, onDependencyUpdated, hr, hdeps, hcc, hcb, heval, eval]

/-- The state after the derivation of `logArgSt`'s computed cell has run
against the freshly written value `7`. -/
def logArgMid : St :=
  { Dep := none,
    rcells := [("r", { val := .vnat 7, deps := ["c"] })],
    ccells := [("c", { computeFn := .readR "r", updateCallback := .log .arg })],
    output := [], calls := [("c", 1)] }

/-- Witness for `C4_write_recomputes_with_new_value` on the concrete state
`logArgSt`: the callback logs `"7"`, the recomputation against the new
value. -/
theorem C4_witness :
    setReactive 5 "r" (.vnat 7) logArgSt
      = some (.ok (.vnat 7), { logArgMid with output := logArgMid.output ++ [jsToString (.vnat 7)] }) ∧
    valOf "r" { logArgSt with
        rcells := updAt "r" (fun x => { x with val := .vnat 7 }) logArgSt.rcells } = .vnat 7 :=
  @C4_write_recomputes_with_new_value logArgSt "r" "c"
    { val := .vnat 0, deps := ["c"] }
    { computeFn := .readR "r", updateCallback := .log .arg }
    3 (.vnat 7) (.vnat 7) logArgMid
    (by decide) (by decide) (by decide) (by decide) (by decide)

/-- C5: a write to a reactive cell whose subscriber collection is `[c1, c2]`
(the order in which the two computed cells first registered, i.e. were first
read) invokes `c1`'s change callback and then `c2`'s, synchronously within the
write itself: the write returns the fully extended output, with `c1`'s entry
preceding `c2`'s. -/
theorem C5_notification_order {st : St} {r c1 c2 : String} {cell : RCell} {cc1 cc2 : CCell}
    {f : Nat} {v v1 v2 u1 u2 : Val} {stA stB : St}
    (hr : lookupR r st.rcells = some cell)
    (hdeps : cell.deps = [c1, c2])
    (hcc1 : lookupC c1 st.ccells = some cc1)
    (hcb1 : cc1.updateCallback = .log (.lit u1))
    (hcc2 : lookupC c2 st.ccells = some cc2)
    (hcb2 : cc2.updateCallback = .log (.lit u2))
    (hnr1 : noRC cc1.computeFn = true) (hnl1 : noLog cc1.computeFn = true)
    (hnr2 : noRC cc2.computeFn = true) (hnl2 : noLog cc2.computeFn = true)
    (h1 : eval (f + 2) .vnull cc1.computeFn
        { st with rcells := updAt r (fun x => { x with val := v }) st.rcells,
                  calls := bumpCalls c1 st.calls } = some (.ok v1, stA))
    (h2 : eval (f + 2) .vnull cc2.computeFn
        { stA with output := stA.output ++ [jsToString u1],
                   calls := bumpCalls c2 stA.calls } = some (.ok v2, stB)) :
    setReactive (f + 2) r v st
      = some (.ok v, { stB with output := stB.output ++ [jsToString u2] }) ∧
    stB.output = st.output ++ [jsToString u1] := by
  have hccA : lookupC c2 stA.ccells = some cc2 := by
    rw [(eval_noRC_stinv hnr1 h1).2.2.1]
    exact hcc2
  have houtA : stA.output = st.output :=
    @eval_noLog_output cc1.computeFn hnr1 hnl1 (f + 2) Val.vnull { st with rcells := updAt r (fun x => { x with val := v }) st.rcells, calls := bumpCalls c1 st.calls } (Res.ok v1) stA h1
  have houtB : stB.output = st.output ++ [jsToString u1] := by
    rw [eval_noLog_output hnr2 hnl2 h2]
    simp [houtA]
  refine ⟨?_, houtB⟩
  simp [setReactive, notifyDeps, onDependencyUpdated, hr, hdeps, hcc1, hcb1, h1,
    hccA, hcb2, h2, eval]

/-- The state after `c1`'s derivation has run during the write of `9` to
`twoSubsSt`'s reactive cell. -/
def twoSubsMidA : St :=
  { Dep := none,
    rcells := [("r", { val := .vnat 9, deps := ["c1", "c2"] })],
    ccells := [("c1", { computeFn := .lit (.vnat 1), updateCallback := .log (.lit (.vstr "one")) }),
               ("c2", { computeFn := .lit (.vnat 2), updateCallback := .log (.lit (.vstr "two")) })],
    output := [], calls := [("c1", 1)] }

/-- The state after `c2`'s derivation has run during the same write. -/
def twoSubsMidB : St :=
  { Dep := none,
    rcells := [("r", { val := .vnat 9, deps := ["c1", "c2"] })],
    ccells := [("c1", { computeFn := .lit (.vnat 1), updateCallback := .log (.lit (.vstr "one")) }),
               ("c2", { computeFn := .lit (.vnat 2), updateCallback := .log (.lit (.vstr "two")) })],
    output := ["one"], calls := [("c1", 1), ("c2", 1)] }

/-- Witness for `C5_notification_order` on the concrete state `twoSubsSt`:
the write appends `"one"` then `"two"`. -/
theorem C5_witness :
    setReactive 5 "r" (.vnat 9) twoSubsSt
      = some (.ok (.vnat 9), { twoSubsMidB with
          output := twoSubsMidB.output ++ [jsToString (.vstr "two")] }) ∧
    twoSubsMidB.output = twoSubsSt.output ++ [jsToString (.vstr "one")] :=
  @C5_notification_order twoSubsSt "r" "c1" "c2"
    { val := .vnat 0, deps := ["c1", "c2"] }
    { computeFn := .lit (.vnat 1), updateCallback := .log (.lit (.vstr "one")) }
    { computeFn := .lit (.vnat 2), updateCallback := .log (.lit (.vstr "two")) }
    3 (.vnat 9) (.vnat 1) (.vnat 2) (.vstr "one") (.vstr "two") twoSubsMidA twoSubsMidB
    (by decide) (by decide) (by decide) (by decide) (by decide) (by decide)
    (by decide) (by decide) (by decide) (by decide) (by decide) (by decide)

end NanoComputed
